import Mathlib

/-!
Verification of the `goutil` repository's `cflag` flag binder and `strutil`
rune helpers, as a shallow embedding in Lean.

Modelling conventions:
- Go strings are UTF-8; the rune helpers immediately convert to `[]rune`, so
  the `Strutil` model works on `List Char` (one element per rune).
- maps (`map[string]T`) are modelled as association lists; the list order of
  such a field stands for the unspecified iteration order of a Go `range`
  over the map, so any permutation of the same entries models the same map.
- fallible operations return `Except`; a Go `panic` at registration time is
  an `.error`/`some msg` outcome.
-/

namespace Strutil

/-- The kinds of `golang.org/x/text/width` relevant to `RuneWidth`. -/
inductive WidthKind where
  | Neutral
  | EastAsianFullwidth
  | EastAsianWide
  | EastAsianAmbiguous
  | EastAsianHalfwidth
  | Narrow
deriving DecidableEq

/-- Modelled from the spec: `width.LookupRune(r).Kind()` of the external
package `golang.org/x/text/width` (its Unicode tables are not part of this
repository). The model covers the classes the source documents in
`RuneWidth`'s examples (`'\n'` has width 0, `'a'` width 1, `'你'` width 2):
ASCII control characters are Neutral, printable ASCII is Narrow, CJK Unified
Ideographs are EastAsianWide; all other runes default to Narrow. -/
def lookupKind (r : Char) : WidthKind :=
  if r.toNat < 32 ∨ r.toNat = 127 then WidthKind.Neutral
  else if r.toNat < 127 then WidthKind.Narrow
  else if 0x4E00 ≤ r.toNat ∧ r.toNat ≤ 0x9FFF then WidthKind.EastAsianWide
  else WidthKind.Narrow

/-- strutil.RuneWidth. -/
def RuneWidth (r : Char) : Nat :=
  let k := lookupKind r
  if k = WidthKind.Neutral then 0
  else if k = WidthKind.EastAsianFullwidth ∨ k = WidthKind.EastAsianWide ∨
      k = WidthKind.EastAsianAmbiguous then 2
  else 1

/-- strutil.Utf8Width: the summed rune widths. -/
def Utf8Width : List Char → Nat
  | [] => 0
  | r :: rest => RuneWidth r + Utf8Width rest

/-- The loop of strutil.Utf8Split, with its state (accumulated width `tmpW`,
current chunk `tmpS`, emitted chunks `ss`). `w` is a Go `int`. -/
def utf8SplitLoop (w : Int) : List Char → Nat → List Char → List (List Char) →
    List (List Char)
  | [], tmpW, tmpS, ss => if 0 < tmpW then ss ++ [tmpS] else ss
  | r :: rest, tmpW, tmpS, ss =>
    let rw := RuneWidth r
    if ((tmpW + rw : Nat) : Int) = w then
      utf8SplitLoop w rest 0 [] (ss ++ [tmpS ++ [r]])
    else if w < ((tmpW + rw : Nat) : Int) then
      utf8SplitLoop w rest rw [r] (ss ++ [tmpS])
    else
      utf8SplitLoop w rest (tmpW + rw) (tmpS ++ [r]) ss

/-- strutil.Utf8Split: split a rune sequence by display width. -/
def Utf8Split (s : List Char) (w : Int) : List (List Char) :=
  if (Utf8Width s : Int) ≤ w then [s] else utf8SplitLoop w s 0 [] []

end Strutil

namespace Cflag

/-- One flag registered on the delegate `flag.FlagSet` engine: its name, its
usage text and its current string value. The model covers string-valued
flags, which is what every tracked claim exercises; `DefValue` is read only
by help rendering, which no claim observes. -/
structure GoFlag where
  name : String
  usage : String := ""
  value : String := ""
deriving DecidableEq

/-- cflag.FlagOpt (declared outside src/; fields as used by the source and
the spec's OptionBinding: shortcuts, required, validator). The Go validator
receives the flag's parsed value (a string for string flags); a `some msg`
result models a non-nil error. -/
structure FlagOpt where
  Shortcuts : List String := []
  Required : Bool := false
  Validator : Option (String → Option String) := none

/-- cflag.FlagArg (declared outside src/; fields as used by the source and
the spec's ArgumentBinding). Go's bound value `V` is a string whose zero
value doubles as "unset"; the model uses an Option so that "never assigned
by bindParsedArgs" is expressible. -/
structure FlagArg where
  Name : String
  Desc : String := ""
  Value : String := ""
  Index : Nat := 0
  Required : Bool := false
  V : Option String := none
deriving DecidableEq

/-- The delegate engine's error: `flag.ErrHelp` or an ordinary message. -/
inductive FlagErr where
  | errHelp
  | msg (s : String)
deriving DecidableEq

/-- cflag.CFlags. The Go fields bindOpts, shortcuts (and the FlagSet's own
flag table) are hash maps; each is modelled as an association list whose
order stands for the unspecified iteration order of a Go `range` over the
map, so any permutation of the same entries models the same map state.
bindArgs is likewise a map keyed by argument name; its list order doubles as
insertion order. The presentation fields (Desc, Version, Example, LongHelp)
and the Func callback are omitted: Func runs only after a successful parse
and no tracked claim observes any of them. -/
structure CFlags where
  formal : List GoFlag
  fsArgs : List String := []
  bindOpts : List (String × FlagOpt) := []
  shortcuts : List (String × String) := []
  argWidth : Nat := 12
  bindArgs : List FlagArg := []
  remainArgs : List String := []

/-- cflag.NewEmpty: fresh binder (argWidth starts at 12). -/
def NewEmpty : CFlags := { formal := [] }

/-- `flag.FlagSet.Lookup`. -/
def lookupFlag (formal : List GoFlag) (name : String) : Option GoFlag :=
  formal.find? (fun f => f.name == name)

/-- Setting a string flag's value (`flag.Value.Set`, which cannot fail for
string flags). -/
def setFlagVal (formal : List GoFlag) (name v : String) : List GoFlag :=
  formal.map (fun f => if f.name == name then { f with value := v } else f)

/-- The first occurrence of `sep`: `some (before, after)` splits around it. -/
def splitFirst (sep : Char) : List Char → Option (List Char × List Char)
  | [] => none
  | c :: rest =>
    if c = sep then some ([], rest)
    else
      match splitFirst sep rest with
      | some (b, a) => some (c :: b, a)
      | none => none

/-- `flag.FlagSet.Parse` with ContinueOnError, for string-valued flags: Go's
parseOne loop. The token scan mirrors parseOne: stop (without consuming) at
a token shorter than 2 bytes or without a leading '-'; consume a lone "--"
and stop; strip one or two minuses; reject a name starting with '-' or '=';
split at the first '=' after the name's first character; unknown names give
ErrHelp for help/h and an error otherwise; a string flag takes the '=' value
or the next argument. Returns the updated flags and the positional
remainder (`f.Args()`). Go leaves partial mutations behind on error; no
tracked claim observes post-error engine state, so errors carry only the
message. -/
def fsParse (formal : List GoFlag) : List String → Except FlagErr (List GoFlag × List String)
  | [] => .ok (formal, [])
  | s :: rest =>
    match s.data with
    | c0 :: c1 :: cs =>
      if c0 = '-' then
        if c1 = '-' ∧ cs = [] then .ok (formal, rest)
        else
          match (if c1 = '-' then cs else c1 :: cs) with
          | [] => .error (.msg ("bad flag syntax: " ++ s))
          | n0 :: ntail =>
            if n0 = '-' ∨ n0 = '=' then .error (.msg ("bad flag syntax: " ++ s))
            else
              let nv : String × Option String :=
                match splitFirst '=' ntail with
                | some (b, a) => (String.mk (n0 :: b), some (String.mk a))
                | none => (String.mk (n0 :: ntail), none)
              match lookupFlag formal nv.1 with
              | none =>
                if nv.1 = "help" ∨ nv.1 = "h" then .error .errHelp
                else .error (.msg ("flag provided but not defined: -" ++ nv.1))
              | some _ =>
                match nv.2 with
                | some v => fsParse (setFlagVal formal nv.1 v) rest
                | none =>
                  match rest with
                  | [] => .error (.msg ("flag needs an argument: -" ++ nv.1))
                  | v :: rest2 => fsParse (setFlagVal formal nv.1 v) rest2
      else .ok (formal, s :: rest)
    | _ => .ok (formal, s :: rest)

/-- Modelled from the spec: cflag.AddPrefix (not under src/) renders an
option or shortcut name with the option-prefix convention the spec describes
("--flag", "-f" for a shortcut): one dash for a single-character name, two
dashes otherwise. -/
def AddPrefix (name : String) : String :=
  if name.length = 1 then "-" ++ name else "--" ++ name

/-- The inner loop of replaceShorts: the registered pair whose prefixed
short form equals the token (AddPrefix is injective, so at most one pair
matches and the map's iteration order is immaterial). -/
def findShort : List (String × String) → String → Option String
  | [], _ => none
  | (short, name) :: rest, arg =>
    if arg = AddPrefix short then some name else findShort rest arg

/-- cflag.replaceShorts: rewrite registered short tokens to their full
option names; everything from the first literal "--" on is passed through
verbatim. (Go tests the first byte `arg[0]`; no UTF-8 lead or continuation
byte equals '-', so testing the first rune is equivalent.) -/
def replaceShorts (shortcuts : List (String × String)) : List String → List String
  | [] => []
  | arg :: rest =>
    if arg = "" ∨ arg.data.head? ≠ some '-' then arg :: replaceShorts shortcuts rest
    else if arg = "--" then arg :: rest
    else
      match findShort shortcuts arg with
      | some name => AddPrefix name :: replaceShorts shortcuts rest
      | none => arg :: replaceShorts shortcuts rest

/-- cflag.checkBindOpts: validate bound options (in map iteration order)
against the engine's parsed values: a required option whose value
serializes to "" is an error; otherwise a configured validator runs on the
value. (In Go a bound option is always a registered flag, so Lookup cannot
return nil; the model reads "" for an absent flag.) -/
def checkBindOpts (formal : List GoFlag) : List (String × FlagOpt) → Except FlagErr Unit
  | [] => .ok ()
  | (name, opt) :: rest =>
    let fv := ((lookupFlag formal name).map GoFlag.value).getD ""
    if opt.Required ∧ fv = "" then
      .error (.msg ("flag option '" ++ name ++ "' is required"))
    else
      match opt.Validator with
      | none => checkBindOpts formal rest
      | some vf =>
        match vf fv with
        | some emsg => .error (.msg ("flag option '" ++ name ++ "': " ++ emsg))
        | none => checkBindOpts formal rest

/-- The loop of cflag.bindParsedArgs over the bound arguments in the map's
iteration order (the order of `binds`): Go's `argN` is `len(args)-1` as an
int, `lastIdx` counts iterations that passed the index test. Returns the
updated arguments (those after an early break untouched) and the final
lastIdx. -/
def bindLoop (args : List String) (argN : Int) : List FlagArg → Nat → Except FlagErr (List FlagArg × Nat)
  | [], lastIdx => .ok ([], lastIdx)
  | arg :: restArgs, lastIdx =>
    if argN < (arg.Index : Int) then
      if arg.Required then
        .error (.msg ("argument '" ++ arg.Name ++ "'(#" ++ toString arg.Index ++ ") is required"))
      else .ok (arg :: restArgs, lastIdx)
    else
      let val := args.getD arg.Index ""
      if arg.Required ∧ val = "" then
        .error (.msg ("argument '" ++ arg.Name ++ "'(#" ++ toString arg.Index ++ ") is required"))
      else
        match bindLoop args argN restArgs (lastIdx + 1) with
        | .error e => .error e
        | .ok (rest', l) => .ok ({ arg with V := some val } :: rest', l)

/-- cflag.bindParsedArgs: bind the engine's positional remainder `args` to
the bound arguments, then collect the remainder exactly as the source does:
`args[lastIdx:]` when `lastIdx < argN`, nothing otherwise. -/
def bindParsedArgs (binds : List FlagArg) (args : List String) : Except FlagErr (List FlagArg × List String) :=
  let argN : Int := (args.length : Int) - 1
  match bindLoop args argN binds 0 with
  | .error e => .error e
  | .ok (binds', lastIdx) =>
    .ok (binds', if (lastIdx : Int) < argN then args.drop lastIdx else [])

/-- cflag.addShortcuts: register shortcut keys for an option. A key already
present panics (`some msg`); mutations made before the panic persist, as
they do in Go. -/
def addShortcuts (c : CFlags) (name : String) : List String → Option String × CFlags
  | [] => (none, c)
  | short :: rest =>
    match c.shortcuts.lookup short with
    | some regName =>
      (some ("cflag: shortcut '" ++ short ++ "' has been used by option '" ++ regName ++ "'"), c)
    | none => addShortcuts { c with shortcuts := c.shortcuts ++ [(short, name)] } name rest

/-- Modelled from the spec: FlagArg.check (the FlagArg declaration is not
under src/). The spec's only check-time configuration failure is a
malformed default value for an argument; defaults are plain strings in this
model, so no default is malformed and the check passes. -/
def argCheck (_ : FlagArg) : Option String := none

/-- cflag.BindArg: assign the next sequential index (the current count of
bound arguments), run the argument's check, and register it; a duplicate
name panics. (Go widens argWidth by the name's byte length; names here are
taken ASCII, where byte and character length agree.) -/
def BindArg (c : CFlags) (arg : FlagArg) : Except String CFlags :=
  let arg := { arg with Index := c.bindArgs.length }
  match argCheck arg with
  | some e => .error e
  | none =>
    if (c.bindArgs.find? (fun a => a.Name == arg.Name)).isSome then
      .error ("cflag: arg '" ++ arg.Name ++ "' have been registered")
    else
      .ok { c with bindArgs := c.bindArgs ++ [arg],
                   argWidth := max c.argWidth arg.Name.length }

/-- A sequence of BindArg calls (cflag.AddArg delegates to BindArg). -/
def bindArgList : CFlags → List FlagArg → Except String CFlags
  | c, [] => .ok c
  | c, a :: rest =>
    match BindArg c a with
    | .error e => .error e
    | .ok c' => bindArgList c' rest

/-- Go `strings.Trim(usage, "; ")`: strip leading and trailing ';' and ' '. -/
def trimSemiSpace (s : String) : String :=
  String.mk (((s.data.dropWhile (fun c => c == ';' || c == ' ')).reverse.dropWhile
    (fun c => c == ';' || c == ' ')).reverse)

/-- Go `strings.TrimSpace` (the ASCII whitespace the claims exercise). -/
def trimSpace (s : String) : String :=
  String.mk (((s.data.dropWhile (fun c => c == ' ' || c == '\t' || c == '\n' || c == '\r')).reverse.dropWhile
    (fun c => c == ' ' || c == '\t' || c == '\n' || c == '\r')).reverse)

/-- Modelled from the spec: strutil.UpperFirst (not under src/; the spec does
not depend on it): upper-case the first character. No tracked claim observes
the rendered description text. -/
def upperFirst (s : String) : String :=
  match s.data with
  | [] => s
  | c :: rest => String.mk (c.toUpper :: rest)

/-- Go `strings.SplitN` on a one-character separator: at most `n` parts, the
last part keeping the rest. -/
def splitNChars (sep : Char) (cs : List Char) : Nat → List (List Char)
  | 0 => []
  | 1 => [cs]
  | n + 2 =>
    match splitFirst sep cs with
    | none => [cs]
    | some (b, a) => b :: splitNChars sep a (n + 1)

/-- Modelled from the spec: strutil.SplitNTrimmed (not under src/): split on
the separator into at most `n` parts, trimming whitespace from each part; a
blank input yields no parts. -/
def SplitNTrimmed (s : String) (sep : Char) (n : Nat) : List String :=
  let t := trimSpace s
  if t = "" then []
  else (splitNChars sep t.data n).map (fun cs => trimSpace (String.mk cs))

/-- Modelled from the spec: strutil.Split (not under src/): split on the
separator, trim each part, and drop empty parts ("its comma-separated
tokens"). -/
def Split (s : String) (sep : Char) : List String :=
  let t := trimSpace s
  if t = "" then []
  else ((splitNChars sep t.data (t.data.length + 1)).map
    (fun cs => trimSpace (String.mk cs))).filter (fun p => p ≠ "")

/-- Modelled from the spec: strutil.Bool (not under src/): a boolean literal
"true/false/1/0/etc."; `none` models a parse error. -/
def strBool (s : String) : Option Bool :=
  let l := String.mk (s.data.map Char.toLower)
  if l = "1" ∨ l = "true" ∨ l = "on" ∨ l = "yes" then some true
  else if l = "0" ∨ l = "false" ∨ l = "off" ∨ l = "no" then some false
  else none

/-- Go `c.bindOpts[name]` with create-on-missing (the map insert appends). -/
def getOrInitOpt (c : CFlags) (name : String) : CFlags :=
  if (c.bindOpts.lookup name).isSome then c
  else { c with bindOpts := c.bindOpts ++ [(name, {})] }

/-- Mutation of the FlagOpt the map holds for `name` (a pointer write in Go). -/
def updateOpt (c : CFlags) (name : String) (fn : FlagOpt → FlagOpt) : CFlags :=
  { c with bindOpts := c.bindOpts.map (fun p => if p.1 == name then (p.1, fn p.2) else p) }

/-- cflag.parseFlagUsage: parse the mini-format `desc;required;shorts` out
of an option's usage text, creating the option's binding on first use,
setting Required when the second part is a true boolean literal, and
registering the third part's comma-separated shortcuts. Returns (panic
message if addShortcuts panicked, the rewritten usage text, the state). -/
def parseFlagUsage (c : CFlags) (name usage : String) : Option String × String × CFlags :=
  let c := getOrInitOpt c name
  let desc := trimSemiSpace usage
  if !(desc.data.contains ';') then (none, upperFirst desc, c)
  else
    let parts := SplitNTrimmed desc ';' 3
    if 1 < parts.length then
      let required := (strBool (parts.getD 1 "")).getD false
      let desc2 :=
        if required then "<red>*</>" ++ upperFirst (parts.getD 0 "")
        else upperFirst (parts.getD 0 "")
      let c := if required then updateOpt c name (fun o => { o with Required := true }) else c
      if 2 < parts.length ∧ parts.getD 2 "" ≠ "" then
        let shorts := Split (parts.getD 2 "") ','
        let c := updateOpt c name (fun o => { o with Shortcuts := shorts })
        let pc := addShortcuts c name shorts
        (pc.1, desc2, pc.2)
      else (none, desc2, c)
    else (none, desc, c)

/-- Insertion into a name-sorted list (Go's flag.FlagSet.VisitAll visits
flags in lexicographic name order). -/
def insertName (n : String) : List String → List String
  | [] => [n]
  | m :: rest => if n ≤ m then n :: m :: rest else m :: insertName n rest

/-- The sorted visiting order of VisitAll. -/
def sortNames (l : List String) : List String := l.foldr insertName []

/-- Write back a flag's rewritten usage text (`f.Usage = ...`). -/
def setFlagUsage (formal : List GoFlag) (name u : String) : List GoFlag :=
  formal.map (fun f => if f.name == name then { f with usage := u } else f)

/-- The VisitAll body of cflag.prepare, over the sorted flag names: panic
when a flag's own name is already registered as a shortcut, otherwise run
the usage mini-format parser and store the rewritten usage. A panic aborts
the walk keeping prior mutations. -/
def prepareLoop (c : CFlags) : List String → Option String × CFlags
  | [] => (none, c)
  | n :: rest =>
    match c.shortcuts.lookup n with
    | some regName =>
      (some ("cflag: name '" ++ n ++ "' has been as shortcut by '" ++ regName ++ "'"), c)
    | none =>
      let usage := ((lookupFlag c.formal n).map GoFlag.usage).getD ""
      match parseFlagUsage c n usage with
      | (some p, _, c') => (some p, c')
      | (none, u', c') => prepareLoop { c' with formal := setFlagUsage c'.formal n u' } rest

/-- cflag.prepare. Discarding the engine's own output and installing the
help hook are presentation-only and not modelled. -/
def prepare (c : CFlags) : Option String × CFlags :=
  prepareLoop c (sortNames (c.formal.map GoFlag.name))

/-- cflag.doParse: shortcut substitution (only when shortcuts and args are
both non-empty), delegate flag parsing, bound-option checks, positional
binding. -/
def doParse (c : CFlags) (args : List String) : Except FlagErr CFlags :=
  let args :=
    if 0 < c.shortcuts.length ∧ 0 < args.length then replaceShorts c.shortcuts args
    else args
  match fsParse c.formal args with
  | .error e => .error e
  | .ok (formal', rest) =>
    match checkBindOpts formal' c.bindOpts with
    | .error e => .error e
    | .ok _ =>
      match bindParsedArgs c.bindArgs rest with
      | .error e => .error e
      | .ok (binds', remain) =>
        .ok { c with formal := formal', fsArgs := rest, bindArgs := binds', remainArgs := remain }

/-- cflag.Parse. `args` is Go's `[]string` parameter: `none` is a nil slice
(which defaults to the process arguments `osArgs`, i.e. os.Args[1:]);
`some []` is an empty but non-nil slice. A panic during prepare is caught by
the deferred recover, which prints and lets Parse return a nil error; the
ErrHelp outcome is likewise swallowed. The Func callback (omitted from the
model) would run after a successful parse and return its own error. -/
def Parse (osArgs : List String) (c : CFlags) (args : Option (List String)) : Except FlagErr CFlags :=
  let as :=
    match args with
    | none => osArgs
    | some a => a
  match prepare c with
  | (some _, c1) => .ok c1
  | (none, c1) =>
    match doParse c1 as with
    | .error e => if e = FlagErr.errHelp then .ok c1 else .error e
    | .ok c2 => .ok c2

/-- cflag.RemainArgs. -/
def RemainArgs (c : CFlags) : List String := c.remainArgs

/-- The parsed value of option `name` after a successful Parse (`none` when
Parse returned an error). -/
def getVal (r : Except FlagErr CFlags) (name : String) : Option String :=
  match r with
  | .ok c => (lookupFlag c.formal name).map GoFlag.value
  | .error _ => none

/-- The remainder collection of a successful Parse. -/
def remainOf (r : Except FlagErr CFlags) : Option (List String) :=
  match r with
  | .ok c => some (RemainArgs c)
  | .error _ => none

/-- The error outcome of a Parse. -/
def errOf (r : Except FlagErr CFlags) : Option FlagErr :=
  match r with
  | .ok _ => none
  | .error e => some e

end Cflag

/-! Concrete binder states used by closed witnesses, counterexamples and
code-bug evaluations. -/

/-- An optional bound argument at index 0. -/
def fxArgName : Cflag.FlagArg := { Name := "name" }

/-- A required bound argument at index 1. -/
def fxArgTag : Cflag.FlagArg := { Name := "tag", Index := 1, Required := true }

/-- A binder with option "name" and the two-character shortcut "nm". -/
def fxNm : Cflag.CFlags := { formal := [{ name := "name" }], shortcuts := [("nm", "name")] }

/-- A binder with option "age" and shortcut "a". -/
def fxShort : Cflag.CFlags := { formal := [{ name := "age" }], shortcuts := [("a", "age")] }

/-- fxShort after prepare lazily created the option's binding. -/
def fxShort1 : Cflag.CFlags :=
  { formal := [{ name := "age" }], shortcuts := [("a", "age")], bindOpts := [("age", {})] }

/-- A binder with a required option "age". -/
def fxReq : Cflag.CFlags :=
  { formal := [{ name := "age" }], bindOpts := [("age", { Required := true })] }

/-- A binder with option "age" only. -/
def fxAge : Cflag.CFlags := { formal := [{ name := "age" }] }

/-- A shortcut table with two single-character shortcuts. -/
def fxSc : List (String × String) := [("a", "age"), ("b", "bee")]

/-- A binder that already owns shortcut "a" (for option "age") and bound
argument "src". -/
def fxOwned : Cflag.CFlags :=
  { formal := [], shortcuts := [("a", "age")], bindArgs := [{ Name := "src" }] }

/-- The binder state reached by binding "src" then "dst" on a fresh binder. -/
def fxTwoArgs : Cflag.CFlags :=
  { formal := [], bindArgs := [{ Name := "src" }, { Name := "dst", Index := 1 }] }

/-! Association-list helpers for the Go map model. -/

theorem lookup_append_some {β : Type} (l1 l2 : List (String × β)) (k : String) (v : β)
    (h : l1.lookup k = some v) : (l1 ++ l2).lookup k = some v := by
  induction l1 with
  | nil => simp [List.lookup] at h
  | cons p l1 ih =>
    obtain ⟨a, b⟩ := p
    by_cases hk : (k == a) = true
    · simpa [List.lookup, hk] using h
    · rw [Bool.not_eq_true] at hk
      simp only [List.cons_append, List.lookup_cons, hk] at h ⊢
      exact ih h

theorem lookup_append_none {β : Type} (l1 l2 : List (String × β)) (k : String)
    (h : l1.lookup k = none) : (l1 ++ l2).lookup k = l2.lookup k := by
  induction l1 with
  | nil => simp
  | cons p l1 ih =>
    obtain ⟨a, b⟩ := p
    by_cases hk : (k == a) = true
    · simp [List.lookup, hk] at h
    · rw [Bool.not_eq_true] at hk
      simp only [List.lookup_cons, hk] at h
      simp only [List.cons_append, List.lookup_cons, hk]
      exact ih h

/-! C10: width splitting is lossless on positive-width runes. -/

theorem utf8SplitLoop_flatten (w : Int) (rs : List Char) :
    ∀ (tmpW : Nat) (tmpS : List Char) (ss : List (List Char)),
      (∀ c ∈ rs, 0 < Strutil.RuneWidth c) → (tmpW = 0 → tmpS = []) →
      (Strutil.utf8SplitLoop w rs tmpW tmpS ss).flatten = ss.flatten ++ (tmpS ++ rs) := by
  induction rs with
  | nil =>
    intro tmpW tmpS ss _ hinv
    simp only [Strutil.utf8SplitLoop]
    split
    · simp
    · next h =>
      have h0 : tmpW = 0 := by omega
      simp [hinv h0]
  | cons r rest ih =>
    intro tmpW tmpS ss hpos hinv
    have hr : 0 < Strutil.RuneWidth r := hpos r (List.mem_cons_self r rest)
    have hrest : ∀ c ∈ rest, 0 < Strutil.RuneWidth c :=
      fun c hc => hpos c (List.mem_cons_of_mem r hc)
    simp only [Strutil.utf8SplitLoop]
    split
    · rw [ih 0 [] _ hrest (fun _ => rfl)]
      simp
    · split
      · rw [ih (Strutil.RuneWidth r) [r] _ hrest (fun h0 => absurd h0 (by omega))]
        simp
      · rw [ih (tmpW + Strutil.RuneWidth r) (tmpS ++ [r]) _ hrest
          (fun h0 => absurd h0 (by omega))]
        simp

/-- Claim C10 (amended): concatenating the chunks of Utf8Split, in order,
reproduces the input string whenever every rune of it has positive display
width; the counterexample shows the one exception, a trailing run of
width-0 runes, which the final `tmpW > 0` guard drops. -/
theorem Utf8Split_flatten_eq_of_pos_width (s : List Char) (w : Int)
    (h : ∀ c ∈ s, 0 < Strutil.RuneWidth c) :
    (Strutil.Utf8Split s w).flatten = s := by
  unfold Strutil.Utf8Split
  split
  · simp
  · rw [utf8SplitLoop_flatten w s 0 [] [] h (fun _ => rfl)]
    simp

/-- Claim C10 witness: splitting "hi你" (rune widths 1, 1, 2) at width 2
concatenates back to the input. -/
theorem Utf8Split_flatten_witness :
    (Strutil.Utf8Split ['h', 'i', '你'] 2).flatten = ['h', 'i', '你'] :=
  Utf8Split_flatten_eq_of_pos_width ['h', 'i', '你'] 2 (by decide)

/-- Claim C10 counterexample: splitting "ab\n" at width 1 yields the chunks
"a", "b"; the trailing width-0 newline rune is dropped, so the concatenation
does not reproduce the input. -/
theorem Utf8Split_drops_trailing_newline :
    Strutil.Utf8Split ['a', 'b', '\n'] 1 = [['a'], ['b']]
    ∧ (Strutil.Utf8Split ['a', 'b', '\n'] 1).flatten ≠ ['a', 'b', '\n'] := by
  decide

/-! C4: tokens after the first literal "--" are never rewritten. -/

/-- Claim C4: for every input list written as `pre ++ "--" :: post` with no
"--" in `pre` (so the marked token is the first literal "--"), the
substitution pass leaves the "--" and every token after it unchanged. -/
theorem replaceShorts_verbatim_after_ddash (sc : List (String × String))
    (pre post : List String) (h : "--" ∉ pre) :
    Cflag.replaceShorts sc (pre ++ "--" :: post) =
      Cflag.replaceShorts sc pre ++ "--" :: post := by
  induction pre with
  | nil =>
    simp [Cflag.replaceShorts]
  | cons a pre ih =>
    have ha : ¬(a = "--") := fun e => h (by simp [e])
    have h' : "--" ∉ pre := fun hm => h (List.mem_cons_of_mem a hm)
    by_cases h1 : a = "" ∨ a.data.head? ≠ some '-'
    · simp only [List.cons_append, Cflag.replaceShorts, if_pos h1]
      simp [ih h']
    · simp only [List.cons_append, Cflag.replaceShorts, if_neg h1, if_neg ha]
      cases hfs : Cflag.findShort sc a with
      | some name => simp [hfs, ih h']
      | none => simp [hfs, ih h']

/-- Claim C4 witness: with shortcuts a and b registered, "-a" before the
"--" is rewritten while "-b" after it is not. -/
theorem replaceShorts_verbatim_after_ddash_witness :
    Cflag.replaceShorts fxSc (["-a"] ++ "--" :: ["-b"]) =
      Cflag.replaceShorts fxSc ["-a"] ++ "--" :: ["-b"] :=
  replaceShorts_verbatim_after_ddash fxSc ["-a"] ["-b"] (by decide)

/-! C6: indices are dense and assigned in call order. -/

theorem BindArg_ok_bindArgs (c : Cflag.CFlags) (a : Cflag.FlagArg) (c' : Cflag.CFlags)
    (h : Cflag.BindArg c a = .ok c') :
    c'.bindArgs = c.bindArgs ++ [{ a with Index := c.bindArgs.length }] := by
  simp only [Cflag.BindArg, Cflag.argCheck] at h
  split at h
  · exact absurd h (by simp)
  · injection h with h2
    rw [← h2]

theorem bindArgList_indexes (l : List Cflag.FlagArg) :
    ∀ (c c' : Cflag.CFlags), Cflag.bindArgList c l = .ok c' →
      c'.bindArgs.map Cflag.FlagArg.Index =
        c.bindArgs.map Cflag.FlagArg.Index ++ List.range' c.bindArgs.length l.length := by
  induction l with
  | nil =>
    intro c c' h
    simp only [Cflag.bindArgList] at h
    injection h with h2
    rw [← h2]
    simp
  | cons a rest ih =>
    intro c c' h
    simp only [Cflag.bindArgList] at h
    cases hb : Cflag.BindArg c a with
    | error e => rw [hb] at h; exact absurd h (by simp)
    | ok c1 =>
      rw [hb] at h
      have h1 := ih c1 c' h
      have h2 := BindArg_ok_bindArgs c a c1 hb
      rw [h1, h2]
      simp [List.range'_succ]

/-- Claim C6: after any sequence of successful argument-binding calls on a
fresh binder, the indices of the bound arguments are exactly 0, 1, 2, ... in
call order: dense, strictly increasing, no gaps. -/
theorem bindArg_indices_dense (l : List Cflag.FlagArg) (c' : Cflag.CFlags)
    (h : Cflag.bindArgList Cflag.NewEmpty l = .ok c') :
    c'.bindArgs.map Cflag.FlagArg.Index = List.range l.length := by
  have h2 := bindArgList_indexes l Cflag.NewEmpty c' h
  simpa [Cflag.NewEmpty, List.range_eq_range'] using h2

/-- Claim C6 witness: binding "src" then "dst" yields indices [0, 1]. -/
theorem bindArg_indices_dense_witness :
    fxTwoArgs.bindArgs.map Cflag.FlagArg.Index = List.range 2 :=
  bindArg_indices_dense [{ Name := "src" }, { Name := "dst" }] fxTwoArgs rfl

/-! C7: duplicate registrations fail fatally; shortcut owners never change. -/

theorem addShortcuts_dup_fails (shorts : List String) :
    ∀ (c : Cflag.CFlags) (name s owner : String),
      c.shortcuts.lookup s = some owner → s ∈ shorts →
      ((Cflag.addShortcuts c name shorts).1).isSome = true := by
  induction shorts with
  | nil => intro c name s owner _ hm; cases hm
  | cons t rest ih =>
    intro c name s owner hlk hm
    simp only [Cflag.addShortcuts]
    cases hlt : c.shortcuts.lookup t with
    | some reg => simp
    | none =>
      have hst : s ≠ t := fun e => by rw [e, hlt] at hlk; cases hlk
      have hm' : s ∈ rest := by
        rcases List.mem_cons.mp hm with h | h
        · exact absurd h hst
        · exact h
      exact ih _ name s owner (lookup_append_some _ _ _ _ hlk) hm'

theorem addShortcuts_preserves (shorts : List String) :
    ∀ (c : Cflag.CFlags) (name s owner : String),
      c.shortcuts.lookup s = some owner →
      ((Cflag.addShortcuts c name shorts).2).shortcuts.lookup s = some owner := by
  induction shorts with
  | nil => intro c name s owner h; simpa [Cflag.addShortcuts] using h
  | cons t rest ih =>
    intro c name s owner hlk
    simp only [Cflag.addShortcuts]
    cases hlt : c.shortcuts.lookup t with
    | some reg => simpa using hlk
    | none => exact ih _ name s owner (lookup_append_some _ _ _ _ hlk)

theorem BindArg_dup_errors (c : Cflag.CFlags) (a : Cflag.FlagArg)
    (h : ∃ x ∈ c.bindArgs, x.Name = a.Name) :
    (Cflag.BindArg c a).isOk = false := by
  simp only [Cflag.BindArg, Cflag.argCheck]
  have hf : (c.bindArgs.find? (fun x => x.Name == a.Name)).isSome = true := by
    rw [List.find?_isSome]
    obtain ⟨x, hx, he⟩ := h
    exact ⟨x, hx, by simp [he]⟩
  simp [hf, Except.isOk, Except.toBool]

/-- Claim C7: registering a shortcut token that is already claimed fails
fatally and the resulting state still maps the token to its original owner;
more generally any addShortcuts call preserves an existing owner, so a
shortcut key maps to at most one option name for the binder's lifetime; and
binding an argument under an already-bound name fails fatally. -/
theorem duplicate_registration_fails :
    (∀ (c : Cflag.CFlags) (name s owner : String) (shorts : List String),
        c.shortcuts.lookup s = some owner → s ∈ shorts →
        ((Cflag.addShortcuts c name shorts).1).isSome = true)
    ∧ (∀ (c : Cflag.CFlags) (name s owner : String) (shorts : List String),
        c.shortcuts.lookup s = some owner →
        ((Cflag.addShortcuts c name shorts).2).shortcuts.lookup s = some owner)
    ∧ (∀ (c : Cflag.CFlags) (a : Cflag.FlagArg),
        (∃ x ∈ c.bindArgs, x.Name = a.Name) → (Cflag.BindArg c a).isOk = false) :=
  ⟨fun c name s owner shorts h1 h2 => addShortcuts_dup_fails shorts c name s owner h1 h2,
   fun c name s owner shorts h1 => addShortcuts_preserves shorts c name s owner h1,
   BindArg_dup_errors⟩

/-- Claim C7 witness: re-claiming shortcut "a" (owned by "age") panics and
keeps the owner; re-binding argument "src" fails. -/
theorem duplicate_registration_fails_witness :
    ((Cflag.addShortcuts fxOwned "other" ["a"]).1).isSome = true
    ∧ ((Cflag.addShortcuts fxOwned "other" ["a"]).2).shortcuts.lookup "a" = some "age"
    ∧ (Cflag.BindArg fxOwned { Name := "src" }).isOk = false :=
  ⟨duplicate_registration_fails.1 fxOwned "other" "a" "age" ["a"] rfl (by decide),
   duplicate_registration_fails.2.1 fxOwned "other" "a" "age" ["a"] rfl,
   duplicate_registration_fails.2.2 fxOwned { Name := "src" }
     ⟨{ Name := "src" }, by decide, rfl⟩⟩

/-! C1, C2: how bindParsedArgs actually walks the map and collects the
remainder. -/

/-- Claim C1 (code bug): bindParsedArgs ranges over the bindArgs hash map,
whose Go iteration order is unspecified. With the optional argument "name"
(index 0), the required argument "tag" (index 1) and zero positional tokens
— the claim's "argument k optional" case (k = 0 < n = 2), which it says
always succeeds with both arguments unset and nothing reported missing —
the two iteration orders of the same two-entry map disagree: index order
succeeds, the other order returns the error naming "tag" (#1). -/
theorem bindParsedArgs_map_order_divergence :
    Cflag.bindParsedArgs [fxArgName, fxArgTag] [] = .ok ([fxArgName, fxArgTag], [])
    ∧ Cflag.bindParsedArgs [fxArgTag, fxArgName] [] =
        .error (.msg "argument 'tag'(#1) is required") :=
  ⟨rfl, rfl⟩

/-- Claim C2 (code bug): with no bound arguments, a successful Parse of one
positional token leaves the remainder empty — the guard `lastIdx < argN`
(argN = len(args)-1) drops a single unconsumed token — while with two
tokens both are collected. -/
theorem remainder_drops_single_leftover :
    Cflag.remainOf (Cflag.Parse [] Cflag.NewEmpty (some ["x"])) = some []
    ∧ Cflag.remainOf (Cflag.Parse [] Cflag.NewEmpty (some ["x", "y"])) = some ["x", "y"] :=
  ⟨rfl, rfl⟩

/-! C9: only a nil argument list defaults to the process arguments. -/

/-- Claim C9 (amended): a nil argument list defaults to the process
invocation arguments — Parse on `none` equals Parse on the process
arguments themselves — while an empty but non-nil list never consults the
process arguments at all. -/
theorem parse_nil_defaults_to_process_args :
    (∀ (osArgs : List String) (c : Cflag.CFlags),
        Cflag.Parse osArgs c none = Cflag.Parse osArgs c (some osArgs))
    ∧ (∀ (os1 os2 : List String) (c : Cflag.CFlags),
        Cflag.Parse os1 c (some []) = Cflag.Parse os2 c (some [])) :=
  ⟨fun _ _ => rfl, fun _ _ _ => rfl⟩

/-- Claim C9 counterexample: with process arguments ["--age", "30"], a nil
list parses them (age = "30") but an empty non-nil list does not (age stays
""), so an empty list does not default to the process arguments. -/
theorem parse_empty_list_not_defaulted :
    Cflag.getVal (Cflag.Parse ["--age", "30"] fxAge none) "age" = some "30"
    ∧ Cflag.getVal (Cflag.Parse ["--age", "30"] fxAge (some [])) "age" = some "" :=
  ⟨rfl, rfl⟩

/-! C5: a required option with an empty serialized value is a parse error. -/

theorem checkBindOpts_append (formal : List Cflag.GoFlag)
    (pre rest : List (String × Cflag.FlagOpt))
    (h : Cflag.checkBindOpts formal pre = .ok ()) :
    Cflag.checkBindOpts formal (pre ++ rest) = Cflag.checkBindOpts formal rest := by
  induction pre with
  | nil => simp
  | cons p pre ih =>
    obtain ⟨n, o⟩ := p
    simp only [Cflag.checkBindOpts, List.cons_append] at h ⊢
    by_cases h1 : o.Required = true ∧
        ((Cflag.lookupFlag formal n).map Cflag.GoFlag.value).getD "" = ""
    · rw [if_pos h1] at h
      exact absurd h (by simp)
    · rw [if_neg h1] at h ⊢
      cases hv : o.Validator with
      | none =>
        simp only [hv] at h ⊢
        exact ih h
      | some vf =>
        simp only [hv] at h ⊢
        cases hvf : vf (((Cflag.lookupFlag formal n).map Cflag.GoFlag.value).getD "") with
        | some emsg =>
          simp only [hvf] at h
          exact absurd h (by simp)
        | none =>
          simp only [hvf] at h ⊢
          exact ih h

/-- Claim C5: if, after the delegate flag engine has parsed the (possibly
shortcut-substituted) arguments, a required option's value serializes to the
empty string — with the bindings the map walk checks before it all passing —
then Parse returns a recoverable error whose message names that option. -/
theorem required_option_empty_errors
    (osArgs args : List String) (c c1 : Cflag.CFlags)
    (formal' : List Cflag.GoFlag) (rest : List String)
    (pre post : List (String × Cflag.FlagOpt)) (name : String) (opt : Cflag.FlagOpt)
    (hprep : Cflag.prepare c = (none, c1))
    (hfs : Cflag.fsParse c1.formal
        (if 0 < c1.shortcuts.length ∧ 0 < args.length then
          Cflag.replaceShorts c1.shortcuts args
        else args) = .ok (formal', rest))
    (hsplit : c1.bindOpts = pre ++ (name, opt) :: post)
    (hpre : Cflag.checkBindOpts formal' pre = .ok ())
    (hreq : opt.Required = true)
    (hval : ((Cflag.lookupFlag formal' name).map Cflag.GoFlag.value).getD "" = "") :
    Cflag.Parse osArgs c (some args) =
      .error (.msg ("flag option '" ++ name ++ "' is required")) := by
  have hdp : Cflag.doParse c1 args =
      .error (.msg ("flag option '" ++ name ++ "' is required")) := by
    unfold Cflag.doParse
    simp only [hfs, hsplit, checkBindOpts_append formal' pre ((name, opt) :: post) hpre,
      Cflag.checkBindOpts]
    rw [if_pos ⟨hreq, hval⟩]
  unfold Cflag.Parse
  simp only [hprep, hdp]
  rw [if_neg (by simp)]

/-- Claim C5 witness: a binder with the required option "age" parsed against
an empty argument list errors naming "age". -/
theorem required_option_empty_errors_witness :
    Cflag.Parse [] fxReq (some []) =
      .error (.msg ("flag option '" ++ "age" ++ "' is required")) :=
  required_option_empty_errors [] [] fxReq fxReq [{ name := "age" }] [] [] []
    "age" { Required := true } rfl rfl rfl rfl rfl rfl

/-! C3: a single-character shortcut is interchangeable with the full name. -/

theorem data_append (s t : String) : (s ++ t).data = s.data ++ t.data := rfl

theorem string_append_left_cancel (s a b : String) (h : s ++ a = s ++ b) : a = b := by
  apply String.ext
  have hd := congrArg String.data h
  rw [data_append, data_append] at hd
  exact List.append_cancel_left hd

theorem dash_ne_ddash (a b : String) (ha : a.length = 1) (hb : b ≠ "") :
    "-" ++ a ≠ "--" ++ b := by
  intro h
  have hd := congrArg String.data h
  rw [data_append, data_append] at hd
  have e1 : ("-" : String).data = ['-'] := rfl
  have e2 : ("--" : String).data = ['-', '-'] := rfl
  rw [e1, e2] at hd
  simp only [List.cons_append, List.nil_append, List.cons.injEq, true_and] at hd
  have hlen : a.data.length = 1 := ha
  rw [hd] at hlen
  simp only [List.length_cons] at hlen
  have hbd : b.data = [] := List.length_eq_zero.mp (by omega)
  exact hb (String.ext hbd)

theorem AddPrefix_eq_dash (s short : String) (hlen : short.length = 1) (hne : short ≠ "-")
    (h : Cflag.AddPrefix s = "-" ++ short) : s = short := by
  unfold Cflag.AddPrefix at h
  split at h
  · exact string_append_left_cancel "-" s short h
  · by_cases hs0 : s = ""
    · rw [hs0] at h
      have h2 : "-" ++ short = "-" ++ "-" := by
        rw [← h]; apply String.ext; rfl
      exact absurd (string_append_left_cancel "-" short "-" h2) hne
    · exact absurd h.symm (dash_ne_ddash short s hlen hs0)

theorem AddPrefix_ne_ddash (s' name : String) (hname : name ≠ "") (hns : s' ≠ name) :
    Cflag.AddPrefix s' ≠ "--" ++ name := by
  unfold Cflag.AddPrefix
  split
  · next hs1 => exact dash_ne_ddash s' name hs1 hname
  · intro h
    exact hns (string_append_left_cancel "--" s' name h)

theorem findShort_single (l : List (String × String)) (short name : String)
    (hmem : (short, name) ∈ l) (hnodup : (l.map Prod.fst).Nodup)
    (hlen : short.length = 1) (hne : short ≠ "-") :
    Cflag.findShort l ("-" ++ short) = some name := by
  induction l with
  | nil => cases hmem
  | cons p rest ih =>
    obtain ⟨s', n'⟩ := p
    rw [List.map_cons, List.nodup_cons] at hnodup
    simp only [Cflag.findShort]
    by_cases he : ("-" ++ short) = Cflag.AddPrefix s'
    · have hs : s' = short := AddPrefix_eq_dash s' short hlen hne he.symm
      rw [if_pos he]
      rcases List.mem_cons.mp hmem with h | h
      · injection h with h1 h2
        rw [h2]
      · have hk : short ∈ rest.map Prod.fst := List.mem_map_of_mem Prod.fst h
        rw [← hs] at hk
        exact absurd hk hnodup.1
    · rw [if_neg he]
      rcases List.mem_cons.mp hmem with h | h
      · injection h with h1 h2
        refine absurd ?_ he
        rw [← h1]
        unfold Cflag.AddPrefix
        rw [if_pos hlen]
      · exact ih h hnodup.2

theorem findShort_ddash_none (l : List (String × String)) (name : String)
    (hname : name ≠ "") (hlk : l.lookup name = none) :
    Cflag.findShort l ("--" ++ name) = none := by
  induction l with
  | nil => rfl
  | cons p rest ih =>
    obtain ⟨s', n'⟩ := p
    rw [List.lookup_cons] at hlk
    cases hks : (name == s') with
    | true => rw [hks] at hlk; cases hlk
    | false =>
      rw [hks] at hlk
      have hns : s' ≠ name := fun e => by
        rw [e] at hks
        simp at hks
      simp only [Cflag.findShort]
      rw [if_neg (fun e => AddPrefix_ne_ddash s' name hname hns e.symm)]
      exact ih hlk

theorem replaceShorts_cons_found (sc : List (String × String)) (arg name : String)
    (rest : List String) (h0 : ¬(arg = "" ∨ arg.data.head? ≠ some '-'))
    (h2 : ¬(arg = "--")) (hf : Cflag.findShort sc arg = some name) :
    Cflag.replaceShorts sc (arg :: rest) =
      Cflag.AddPrefix name :: Cflag.replaceShorts sc rest := by
  simp only [Cflag.replaceShorts, if_neg h0, if_neg h2, hf]

theorem replaceShorts_cons_pass (sc : List (String × String)) (arg : String)
    (rest : List String) (h0 : ¬(arg = "" ∨ arg.data.head? ≠ some '-'))
    (h2 : ¬(arg = "--")) (hf : Cflag.findShort sc arg = none) :
    Cflag.replaceShorts sc (arg :: rest) = arg :: Cflag.replaceShorts sc rest := by
  simp only [Cflag.replaceShorts, if_neg h0, if_neg h2, hf]

theorem fsParse_dash_ddash (formal : List Cflag.GoFlag) (name : String) (rest : List String)
    (h1 : name ≠ "") (h2 : name.data.head? ≠ some '-') (h3 : name.data.head? ≠ some '=') :
    Cflag.fsParse formal (("-" ++ name) :: rest) =
      Cflag.fsParse formal (("--" ++ name) :: rest) := by
  cases hd : name.data with
  | nil => exact absurd (String.ext hd) h1
  | cons n0 ntail =>
    have hn0d : ¬(n0 = '-') := by rw [hd] at h2; simpa using h2
    have hn0e : ¬(n0 = '=') := by rw [hd] at h3; simpa using h3
    have e1 : ("-" ++ name) = String.mk ('-' :: n0 :: ntail) := by
      apply String.ext
      rw [data_append, hd]
      rfl
    have e2 : ("--" ++ name) = String.mk ('-' :: '-' :: n0 :: ntail) := by
      apply String.ext
      rw [data_append, hd]
      rfl
    rw [e1, e2]
    simp only [Cflag.fsParse]
    simp [hn0d, hn0e]

/-- Claim C3 (amended): for every option with a registered single-character
shortcut — the shortcut not being the bare "-", the option name nonempty,
not starting with '-' or '=', and not itself registered as a shortcut key —
parsing ["-shortcut", value] yields exactly the same result (parsed option
values, bound state and error outcome) as parsing ["--fullname", value].
The counterexample shows the claim fails for a multi-character shortcut,
whose prefixed form uses "--", so its single-dash spelling is not
rewritten. -/
theorem shortcut_equiv_fullname_single_char
    (osArgs : List String) (c c1 : Cflag.CFlags) (short name v : String)
    (hprep : Cflag.prepare c = (none, c1))
    (hmem : (short, name) ∈ c1.shortcuts)
    (hnodup : (c1.shortcuts.map Prod.fst).Nodup)
    (hlen : short.length = 1) (hsne : short ≠ "-")
    (hname : name ≠ "")
    (hh1 : name.data.head? ≠ some '-') (hh2 : name.data.head? ≠ some '=')
    (hkey : c1.shortcuts.lookup name = none) :
    Cflag.Parse osArgs c (some ["-" ++ short, v]) =
      Cflag.Parse osArgs c (some ["--" ++ name, v]) := by
  have hpos : 0 < c1.shortcuts.length := List.length_pos.mpr (List.ne_nil_of_mem hmem)
  have hdL : ("-" ++ short).data = '-' :: short.data := by rw [data_append]; rfl
  have hdR : ("--" ++ name).data = '-' :: '-' :: name.data := by rw [data_append]; rfl
  have hL0 : ¬("-" ++ short = "" ∨ ("-" ++ short).data.head? ≠ some '-') := by
    rw [hdL]
    rintro (h | h)
    · have := congrArg String.data h
      rw [hdL] at this
      cases this
    · exact h rfl
  have hR0 : ¬("--" ++ name = "" ∨ ("--" ++ name).data.head? ≠ some '-') := by
    rw [hdR]
    rintro (h | h)
    · have := congrArg String.data h
      rw [hdR] at this
      cases this
    · exact h rfl
  have hL2 : ¬("-" ++ short = "--") := by
    intro h
    have h2 : "-" ++ short = "-" ++ "-" := by rw [h]; apply String.ext; rfl
    exact hsne (string_append_left_cancel "-" short "-" h2)
  have hR2 : ¬("--" ++ name = "--") := by
    intro h
    have h2 : "--" ++ name = "--" ++ "" := by rw [h]; apply String.ext; rfl
    exact hname (string_append_left_cancel "--" name "" h2)
  have eL : Cflag.replaceShorts c1.shortcuts ["-" ++ short, v] =
      Cflag.AddPrefix name :: Cflag.replaceShorts c1.shortcuts [v] :=
    replaceShorts_cons_found c1.shortcuts ("-" ++ short) name [v] hL0 hL2
      (findShort_single c1.shortcuts short name hmem hnodup hlen hsne)
  have eR : Cflag.replaceShorts c1.shortcuts ["--" ++ name, v] =
      ("--" ++ name) :: Cflag.replaceShorts c1.shortcuts [v] :=
    replaceShorts_cons_pass c1.shortcuts ("--" ++ name) [v] hR0 hR2
      (findShort_ddash_none c1.shortcuts name hname hkey)
  have hfs : Cflag.fsParse c1.formal
      (Cflag.AddPrefix name :: Cflag.replaceShorts c1.shortcuts [v]) =
      Cflag.fsParse c1.formal (("--" ++ name) :: Cflag.replaceShorts c1.shortcuts [v]) := by
    by_cases hl : name.length = 1
    · have ha : Cflag.AddPrefix name = "-" ++ name := by
        unfold Cflag.AddPrefix
        rw [if_pos hl]
      rw [ha]
      exact fsParse_dash_ddash c1.formal name _ hname hh1 hh2
    · have ha : Cflag.AddPrefix name = "--" ++ name := by
        unfold Cflag.AddPrefix
        rw [if_neg hl]
      rw [ha]
  have hdp : Cflag.doParse c1 ["-" ++ short, v] = Cflag.doParse c1 ["--" ++ name, v] := by
    unfold Cflag.doParse
    rw [if_pos (⟨hpos, by simp⟩ :
          0 < c1.shortcuts.length ∧ 0 < (["-" ++ short, v] : List String).length),
        if_pos (⟨hpos, by simp⟩ :
          0 < c1.shortcuts.length ∧ 0 < (["--" ++ name, v] : List String).length),
        eL, eR]
    simp only [hfs]
  unfold Cflag.Parse
  simp only [hprep, hdp]

/-- Claim C3 witness: shortcut "a" of option "age": parsing ["-a", "30"]
yields the same result as parsing ["--age", "30"]. -/
theorem shortcut_equiv_fullname_witness :
    Cflag.Parse [] fxShort (some ["-" ++ "a", "30"]) =
      Cflag.Parse [] fxShort (some ["--" ++ "age", "30"]) :=
  shortcut_equiv_fullname_single_char [] fxShort fxShort1 "a" "age" "30"
    rfl (by decide) (by decide) rfl (by decide) (by decide) (by decide) (by decide) rfl

/-- Claim C3 counterexample: "nm" is a registered shortcut of option "name",
yet parsing ["-nm", "v"] returns an error (the single-dash token is not
rewritten, since the prefix convention spells multi-character shortcuts with
"--") while parsing ["--name", "v"] succeeds: the error outcomes differ. -/
theorem shortcut_multichar_not_equiv :
    Cflag.errOf (Cflag.Parse [] fxNm (some ["-nm", "v"])) =
      some (.msg "flag provided but not defined: -nm")
    ∧ Cflag.errOf (Cflag.Parse [] fxNm (some ["--name", "v"])) = none :=
  ⟨rfl, rfl⟩

/-! C8: the usage mini-format sets Required and registers shortcuts. -/

theorem lookup_map_pair (shorts : List String) (name s : String) (h : s ∈ shorts) :
    (shorts.map (fun t => (t, name))).lookup s = some name := by
  induction shorts with
  | nil => cases h
  | cons t rest ih =>
    by_cases he : s = t
    · subst he
      simp [List.lookup_cons]
    · have hb : (s == t) = false := beq_eq_false_iff_ne.mpr he
      simp only [List.map_cons, List.lookup_cons, hb]
      exact ih (by
        rcases List.mem_cons.mp h with h1 | h1
        · exact absurd h1 he
        · exact h1)

theorem lookup_map_update (l : List (String × Cflag.FlagOpt)) (name : String)
    (fn : Cflag.FlagOpt → Cflag.FlagOpt) :
    (l.map (fun p => if p.1 == name then (p.1, fn p.2) else p)).lookup name
      = (l.lookup name).map fn := by
  induction l with
  | nil => rfl
  | cons p l ih =>
    obtain ⟨a, b⟩ := p
    by_cases he : a = name
    · subst he
      simp [List.lookup_cons, ih]
    · have h1 : (a == name) = false := beq_eq_false_iff_ne.mpr he
      have h2 : (name == a) = false := beq_eq_false_iff_ne.mpr (Ne.symm he)
      simp only [List.map_cons, h1, if_neg, List.lookup_cons, h2, Bool.false_eq_true,
        if_false, ih]

theorem updateOpt_lookup (c : Cflag.CFlags) (name : String)
    (fn : Cflag.FlagOpt → Cflag.FlagOpt) :
    (Cflag.updateOpt c name fn).bindOpts.lookup name = (c.bindOpts.lookup name).map fn :=
  lookup_map_update c.bindOpts name fn

theorem getOrInitOpt_lookup (c : Cflag.CFlags) (name : String) :
    ((Cflag.getOrInitOpt c name).bindOpts.lookup name).isSome = true := by
  unfold Cflag.getOrInitOpt
  split
  · next h => exact h
  · next h =>
    have hn : c.bindOpts.lookup name = none := by
      cases hl : c.bindOpts.lookup name with
      | none => rfl
      | some o => rw [hl] at h; simp at h
    show ((c.bindOpts ++
        [(name, ({ Shortcuts := [], Required := false, Validator := none } :
          Cflag.FlagOpt))]).lookup name).isSome = true
    rw [lookup_append_none _ _ _ hn]
    simp [List.lookup_cons]

theorem addShortcuts_bindOpts (shorts : List String) :
    ∀ (c : Cflag.CFlags) (name : String),
      (Cflag.addShortcuts c name shorts).2.bindOpts = c.bindOpts := by
  induction shorts with
  | nil => intro c name; rfl
  | cons t rest ih =>
    intro c name
    simp only [Cflag.addShortcuts]
    cases hlt : c.shortcuts.lookup t with
    | some reg => rfl
    | none => exact ih _ name

theorem addShortcuts_fresh (shorts : List String) :
    ∀ (c : Cflag.CFlags) (name : String),
      (∀ s ∈ shorts, c.shortcuts.lookup s = none) → shorts.Nodup →
      (Cflag.addShortcuts c name shorts).1 = none
      ∧ (Cflag.addShortcuts c name shorts).2.shortcuts
          = c.shortcuts ++ shorts.map (fun s => (s, name)) := by
  induction shorts with
  | nil =>
    intro c name _ _
    exact ⟨rfl, by simp [Cflag.addShortcuts]⟩
  | cons t rest ih =>
    intro c name hfresh hnd
    rw [List.nodup_cons] at hnd
    simp only [Cflag.addShortcuts]
    rw [hfresh t (List.mem_cons_self t rest)]
    have hf' : ∀ s ∈ rest,
        ({ c with shortcuts := c.shortcuts ++ [(t, name)] } : Cflag.CFlags).shortcuts.lookup s
          = none := by
      intro s hs
      have h1 : c.shortcuts.lookup s = none := hfresh s (List.mem_cons_of_mem t hs)
      have h2 : s ≠ t := fun e => hnd.1 (e ▸ hs)
      have h3 : (s == t) = false := beq_eq_false_iff_ne.mpr h2
      show (c.shortcuts ++ [(t, name)]).lookup s = none
      rw [lookup_append_none _ _ _ h1]
      simp [List.lookup_cons, h3]
    obtain ⟨p1, p2⟩ := ih _ name hf' hnd.2
    refine ⟨p1, ?_⟩
    rw [p2]
    simp

theorem SplitNTrimmed_length_le3 (s : String) (sep : Char) :
    (Cflag.SplitNTrimmed s sep 3).length ≤ 3 := by
  show (if Cflag.trimSpace s = "" then ([] : List String)
    else (Cflag.splitNChars sep (Cflag.trimSpace s).data 3).map
      (fun cs => Cflag.trimSpace (String.mk cs))).length ≤ 3
  split
  · simp
  · rw [List.length_map]
    generalize (Cflag.trimSpace s).data = cs
    show (Cflag.splitNChars sep cs (1 + 2)).length ≤ 3
    simp only [Cflag.splitNChars]
    cases h1 : Cflag.splitFirst sep cs with
    | none => simp
    | some p =>
      obtain ⟨b, a⟩ := p
      simp only [List.length_cons]
      show (Cflag.splitNChars sep a (0 + 2)).length + 1 ≤ 3
      simp only [Cflag.splitNChars]
      cases h2 : Cflag.splitFirst sep a with
      | none => simp
      | some q => simp

/-- Claim C8: when an option's declared usage text carries the mini-format
(the trimmed text contains ';'), the binder splits it on ';' into at most 3
parts; when the second part parses as boolean true the binding becomes
required, and when a non-empty third part is present its comma-separated
tokens (all fresh and distinct) become the option's Shortcuts and are
registered in the shortcut table as mapping to that option. -/
theorem usage_miniformat_sets_required_and_shortcuts
    (c : Cflag.CFlags) (name usage : String) (parts shorts : List String)
    (hparts : parts = Cflag.SplitNTrimmed (Cflag.trimSemiSpace usage) ';' 3)
    (hsem : (Cflag.trimSemiSpace usage).data.contains ';' = true)
    (hreq : Cflag.strBool (parts.getD 1 "") = some true)
    (hlen2 : 1 < parts.length)
    (hlen3 : 2 < parts.length)
    (hthird : parts.getD 2 "" ≠ "")
    (hshorts : shorts = Cflag.Split (parts.getD 2 "") ',')
    (hfresh : ∀ s ∈ shorts, c.shortcuts.lookup s = none)
    (hnd : shorts.Nodup) :
    parts.length ≤ 3
    ∧ (Cflag.parseFlagUsage c name usage).1 = none
    ∧ ((Cflag.parseFlagUsage c name usage).2.2.bindOpts.lookup name).map
        Cflag.FlagOpt.Required = some true
    ∧ ((Cflag.parseFlagUsage c name usage).2.2.bindOpts.lookup name).map
        Cflag.FlagOpt.Shortcuts = some shorts
    ∧ ∀ s ∈ shorts,
        (Cflag.parseFlagUsage c name usage).2.2.shortcuts.lookup s = some name := by
  have hc2sc : (Cflag.updateOpt
      (Cflag.updateOpt (Cflag.getOrInitOpt c name) name (fun o => { o with Required := true }))
      name (fun o => { o with Shortcuts := shorts })).shortcuts = c.shortcuts := by
    show (Cflag.getOrInitOpt c name).shortcuts = c.shortcuts
    unfold Cflag.getOrInitOpt
    split <;> rfl
  have hfresh2 : ∀ s ∈ shorts, (Cflag.updateOpt
      (Cflag.updateOpt (Cflag.getOrInitOpt c name) name (fun o => { o with Required := true }))
      name (fun o => { o with Shortcuts := shorts })).shortcuts.lookup s = none := by
    intro s hs
    rw [hc2sc]
    exact hfresh s hs
  obtain ⟨hpanic, hsc⟩ := addShortcuts_fresh shorts _ name hfresh2 hnd
  have hred : Cflag.parseFlagUsage c name usage =
      ((Cflag.addShortcuts
          (Cflag.updateOpt
            (Cflag.updateOpt (Cflag.getOrInitOpt c name) name
              (fun o => { o with Required := true }))
            name (fun o => { o with Shortcuts := shorts }))
          name shorts).1,
        "<red>*</>" ++ Cflag.upperFirst (parts.getD 0 ""),
        (Cflag.addShortcuts
          (Cflag.updateOpt
            (Cflag.updateOpt (Cflag.getOrInitOpt c name) name
              (fun o => { o with Required := true }))
            name (fun o => { o with Shortcuts := shorts }))
          name shorts).2) := by
    unfold Cflag.parseFlagUsage
    simp only [hsem, Bool.not_true, Bool.false_eq_true, if_false]
    rw [← hparts]
    rw [if_pos hlen2]
    simp only [hreq, Option.getD_some, if_true]
    rw [if_pos ⟨hlen3, hthird⟩, ← hshorts]
  have hbind : (Cflag.parseFlagUsage c name usage).2.2.bindOpts =
      (Cflag.updateOpt
        (Cflag.updateOpt (Cflag.getOrInitOpt c name) name
          (fun o => { o with Required := true }))
        name (fun o => { o with Shortcuts := shorts })).bindOpts := by
    rw [hred]
    exact addShortcuts_bindOpts shorts _ name
  obtain ⟨o0, ho0⟩ := Option.isSome_iff_exists.mp (getOrInitOpt_lookup c name)
  have hlk : (Cflag.parseFlagUsage c name usage).2.2.bindOpts.lookup name =
      some { o0 with Required := true, Shortcuts := shorts } := by
    rw [hbind, updateOpt_lookup, updateOpt_lookup, ho0]
    rfl
  refine ⟨?_, ?_, ?_, ?_, ?_⟩
  · rw [hparts]
    exact SplitNTrimmed_length_le3 _ _
  · rw [hred]
    exact hpanic
  · rw [hlk]
    rfl
  · rw [hlk]
    rfl
  · intro s hs
    rw [hred]
    show (Cflag.addShortcuts _ name shorts).2.shortcuts.lookup s = some name
    rw [hsc, hc2sc, lookup_append_none _ _ _ (hfresh s hs)]
    exact lookup_map_pair shorts name s hs

/-- Claim C8 witness: usage "your age;true;a" on option "age" of a fresh
binder: at most 3 parts, no panic, Required set, Shortcuts = ["a"], and "a"
mapped to "age". -/
theorem usage_miniformat_witness :
    (["your age", "true", "a"] : List String).length ≤ 3
    ∧ (Cflag.parseFlagUsage Cflag.NewEmpty "age" "your age;true;a").1 = none
    ∧ ((Cflag.parseFlagUsage Cflag.NewEmpty "age" "your age;true;a").2.2.bindOpts.lookup
        "age").map Cflag.FlagOpt.Required = some true
    ∧ ((Cflag.parseFlagUsage Cflag.NewEmpty "age" "your age;true;a").2.2.bindOpts.lookup
        "age").map Cflag.FlagOpt.Shortcuts = some ["a"]
    ∧ ∀ s ∈ (["a"] : List String),
        (Cflag.parseFlagUsage Cflag.NewEmpty "age" "your age;true;a").2.2.shortcuts.lookup s
          = some "age" :=
  usage_miniformat_sets_required_and_shortcuts Cflag.NewEmpty "age" "your age;true;a"
    ["your age", "true", "a"] ["a"] rfl rfl rfl (by decide) (by decide) (by decide) rfl
    (by intro s hs; rfl) (by decide)
